import Mathlib

/-!
Verification of the knapsack solving engine and its step-replay frontend.

The repository ships the frontend component code (README.md embeds the
`KnapsackSolver` React component), the HTTP documentation with concrete
request/response examples (`Backend/KNAPSACK_DOCUMENTATION.md`) and the
database schema; the backend solver module itself is not in the tree.
The solver, validator and ordering utility below are therefore modelled
from the specification (and, for the step trace, from the documented
example responses, which are the repository's own record of the backend
output).  The frontend definitions (`applyOp`, `updateItem`,
`getCurrentStep`) are translated directly from the component source.
-/

namespace Knapsack

/-- Modelled from the spec: an item of a knapsack problem (§3).  The spec
defines the DP selection semantics only on integer-unit weights and
capacity (§4.3, §9: the scaling contract for non-integer weights is an
explicitly open question), so weights are natural numbers of the common
integer unit; values are exact rationals. -/
structure Item where
  id : ℤ
  weight : ℕ
  value : ℚ
deriving DecidableEq, Repr

/-- Total weight of a list of items. -/
def wsum (l : List Item) : ℕ := (l.map Item.weight).sum

/-- Total value of a list of items. -/
def vsum (l : List Item) : ℚ := (l.map Item.value).sum

/-- Value-to-weight ratio of an item. -/
def density (x : Item) : ℚ := x.value / (x.weight : ℚ)

/-- Modelled from the spec: validity of a solver-level problem instance,
mirroring the Validator bounds of §4.1 on items and capacity (non-empty,
at most 1000 items, weights in [1, 10^6] units, values in [0, 10^6],
distinct ids, capacity in [1, 10^6]). -/
def ValidInstance (items : List Item) (cap : ℕ) : Prop :=
  items ≠ [] ∧ items.length ≤ 1000 ∧
  (∀ x ∈ items, 1 ≤ x.weight ∧ x.weight ≤ 1000000 ∧ 0 ≤ x.value ∧ x.value ≤ 1000000) ∧
  items.Pairwise (fun a b => a.id ≠ b.id) ∧
  1 ≤ cap ∧ cap ≤ 1000000

instance (items : List Item) (cap : ℕ) : Decidable (ValidInstance items cap) := by
  unfold ValidInstance
  infer_instance

/-! ## Validator (spec §4.1)

The raw request carries rational weights/values, a rational capacity and
the algorithm name string used on the wire (`dp_01`, `greedy`,
`fractional`, per §6 and the documentation). -/

/-- Modelled from the spec: an item as submitted in a request. -/
structure RawItem where
  id : ℤ
  weight : ℚ
  value : ℚ
deriving DecidableEq, Repr

/-- Modelled from the spec: a raw solve request. -/
structure RawProblem where
  items : List RawItem
  capacity : ℚ
  algorithm : String
deriving DecidableEq, Repr

/-- Modelled from the spec: the validation error taxonomy (§7). -/
inductive ValidationError where
  | EmptyItems
  | TooManyItems
  | InvalidCapacity
  | CapacityTooLarge
  | InvalidItem (id : ℤ)
  | DuplicateItemId
  | InvalidAlgorithm
  | CapacityTooLargeForExact
deriving DecidableEq, Repr

/-- Bounds check on a single raw item (validator check 5). -/
def rawItemOk (x : RawItem) : Bool :=
  decide (0 < x.weight) && decide (0 ≤ x.value) &&
  decide (x.weight ≤ 1000000) && decide (x.value ≤ 1000000)

/-- Modelled from the spec: `validate` (§4.1), performing the eight checks
in order and short-circuiting on the first failure. -/
def validate (p : RawProblem) : Except ValidationError Unit :=
  if p.items = [] then .error .EmptyItems
  else if 1000 < p.items.length then .error .TooManyItems
  else if p.capacity ≤ 0 then .error .InvalidCapacity
  else if 1000000 < p.capacity then .error .CapacityTooLarge
  else
    match p.items.find? (fun x => !(rawItemOk x)) with
    | some bad => .error (.InvalidItem bad.id)
    | none =>
      if ¬ (p.items.map RawItem.id).Nodup then .error .DuplicateItemId
      else if ¬ (p.algorithm = "dp_01" ∨ p.algorithm = "greedy" ∨ p.algorithm = "fractional") then
        .error .InvalidAlgorithm
      else if p.algorithm = "dp_01" ∧ 10000 < p.capacity then .error .CapacityTooLargeForExact
      else .ok ()

/-! ## Ordering utility (spec §4.2) -/

/-- Modelled from the spec: the ranking preorder — higher value/weight
ratio first, ties broken by ascending id (§4.2, §9). -/
def rankLE (a b : Item) : Prop :=
  density b < density a ∨ (density a = density b ∧ a.id ≤ b.id)

instance (a b : Item) : Decidable (rankLE a b) := by
  unfold rankLE
  infer_instance

/-- Insert an item into a list ordered by `rankLE`. -/
def insRank (x : Item) : List Item → List Item
  | [] => [x]
  | y :: ys => if rankLE x y then x :: y :: ys else y :: insRank x ys

/-- Modelled from the spec: `rank` (§4.2), sorting by descending
value/weight ratio with ties by ascending id (insertion sort — the
ordering contract is total, so any comparison sort yields this order). -/
def rank : List Item → List Item
  | [] => []
  | x :: xs => insRank x (rank xs)

/-! ## DP solver (spec §4.3) -/

/-- Modelled from the spec: the 0/1 knapsack value table (§4.3).
`best l c` is `best[i][c]` where `l` lists the first `i` items in
submission order; the recurrence peels the most recently added item
(row `i` against row `i-1`), so the list argument here carries the items
in reverse submission order. -/
def best : List Item → ℕ → ℚ
  | [], _ => 0
  | x :: xs, c =>
      if c < x.weight then best xs c
      else max (best xs c) (best xs (c - x.weight) + x.value)

/-- Modelled from the spec: backward reconstruction of the selected set
(§4.3), walking from `best[n][C]` down and preferring "item included"
whenever both choices tie.  The list argument is in reverse submission
order (item `n` first), matching the walk from row `n` to row `1`. -/
def dpBack : List Item → ℕ → List Item
  | [], _ => []
  | x :: xs, c =>
      if c < x.weight then dpBack xs c
      else if best xs c ≤ best xs (c - x.weight) + x.value then
        x :: dpBack xs (c - x.weight)
      else dpBack xs c

/-- Selection returned by the exact (dp_01) solver, in submission order. -/
def dp01Selected (items : List Item) (c : ℕ) : List Item :=
  (dpBack items.reverse c).reverse

/-- Total weight reported by the exact solver. -/
def dp01TotalWeight (items : List Item) (c : ℕ) : ℕ := wsum (dp01Selected items c)

/-- Total value reported by the exact solver. -/
def dp01TotalValue (items : List Item) (c : ℕ) : ℚ := vsum (dp01Selected items c)

/-! ## Greedy solver (spec §4.4) -/

/-- Modelled from the spec: the greedy 0/1 scan (§4.4) over the ranked
items, carrying the running weight; an item is included wholly when it
still fits, otherwise skipped permanently. -/
def greedyGo : List Item → ℕ → ℕ → List Item
  | [], _, _ => []
  | x :: xs, cap, run =>
      if run + x.weight ≤ cap then x :: greedyGo xs cap (run + x.weight)
      else greedyGo xs cap run

/-- Selection returned by the greedy solver. -/
def greedySelected (items : List Item) (cap : ℕ) : List Item :=
  greedyGo (rank items) cap 0

/-- Total weight reported by the greedy solver. -/
def greedyTotalWeight (items : List Item) (cap : ℕ) : ℕ := wsum (greedySelected items cap)

/-- Total value reported by the greedy solver. -/
def greedyTotalValue (items : List Item) (cap : ℕ) : ℚ := vsum (greedySelected items cap)

/-! ## Fractional solver (spec §4.5) -/

/-- Modelled from the spec: the fractional scan (§4.5) over the ranked
items.  While remaining capacity is positive: a fully fitting item is
included at fraction 1; otherwise the item is included at fraction
`remaining / weight` and the scan stops — no further items are
evaluated after the first fractional or capacity-exhausting item. -/
def fracGo : List Item → ℚ → List (Item × ℚ)
  | [], _ => []
  | x :: xs, r =>
      if r ≤ 0 then []
      else if (x.weight : ℚ) ≤ r then (x, 1) :: fracGo xs (r - (x.weight : ℚ))
      else [(x, r / (x.weight : ℚ))]

/-- Selection (with fractions) returned by the fractional solver. -/
def fracSelected (items : List Item) (cap : ℕ) : List (Item × ℚ) :=
  fracGo (rank items) (cap : ℚ)

/-- Total weight of a fractional selection: sum of weight times fraction. -/
def fracWeightOf (sel : List (Item × ℚ)) : ℚ :=
  (sel.map (fun p => (p.1.weight : ℚ) * p.2)).sum

/-- Total value of a fractional selection: sum of value times fraction. -/
def fracValueOf (sel : List (Item × ℚ)) : ℚ :=
  (sel.map (fun p => p.1.value * p.2)).sum

/-- Total weight reported by the fractional solver. -/
def fracTotalWeight (items : List Item) (cap : ℕ) : ℚ :=
  fracWeightOf (fracSelected items cap)

/-- Total value reported by the fractional solver. -/
def fracTotalValue (items : List Item) (cap : ℕ) : ℚ :=
  fracValueOf (fracSelected items cap)

/-! ## Step trace of the exact solver

Modelled from the repository documentation: Example 1 of
`Backend/KNAPSACK_DOCUMENTATION.md` shows the returned `steps` array
opening with `step_index 0`, description "Initializing DP table with 3
items and capacity 50", `current_decision` null and an empty selection;
the per-item decision records follow (one per item, as in spec §4.3). -/

/-- A recorded step of the trace (step JSON schema of the documentation). -/
structure Step where
  index : ℕ
  description : String
  decision : Option String
  selected : List Item
  total_weight : ℕ
  total_value : ℚ
deriving DecidableEq, Repr

/-- Modelled from the documentation, Example 1: the initialization record
stored at step index 0 by the exact solver. -/
def dpInitStep (items : List Item) (c : ℕ) : Step :=
  { index := 0
  , description := "Initializing DP table with " ++ toString items.length ++
      " items and capacity " ++ toString c
  , decision := none
  , selected := []
  , total_weight := 0
  , total_value := 0 }

/-- Modelled from the spec (§4.3): the per-item step emitted after row
`k+1` of the table is computed — decision by comparing `best[k+1][C]`
with `best[k][C]`, snapshot of the optimal partial selection through
that item at the final capacity. -/
def dpItemStep (items : List Item) (c : ℕ) (k : ℕ) (x : Item) : Step :=
  { index := k + 1
  , description := "Processing item " ++ toString x.id
  , decision := some (if best (items.take k).reverse c < best (items.take (k + 1)).reverse c
      then "Include item " ++ toString x.id
      else "Skip item " ++ toString x.id)
  , selected := dp01Selected (items.take (k + 1)) c
  , total_weight := dp01TotalWeight (items.take (k + 1)) c
  , total_value := dp01TotalValue (items.take (k + 1)) c }

/-- The full step trace of the exact solver: the stored initialization
record followed by one step per item. -/
def dp01Steps (items : List Item) (c : ℕ) : List Step :=
  dpInitStep items c :: (items.enum.map fun p => dpItemStep items c p.1 p.2)

/-! ## Step-replay consumer (frontend `KnapsackSolver` component) -/

/-- The synthetic pre-trace display state built by the consumer
(`getCurrentStep` in the component source) for cursor value -1. -/
structure DisplayState where
  description : String
  selected : List Item
  total_weight : ℕ
  total_value : ℚ
deriving DecidableEq, Repr

/-- The consumer's synthesized initial state ("Initial state - Ready to
solve", empty selection, zero totals). -/
def initialDisplay : DisplayState :=
  { description := "Initial state - Ready to solve"
  , selected := []
  , total_weight := 0
  , total_value := 0 }

/-- The frontend `getCurrentStep`: cursor -1 yields the synthesized
initial state; a non-negative cursor reads the stored step (null when
out of range). -/
def getCurrentStep (steps : List Step) (i : ℤ) : Option DisplayState :=
  if i = -1 then some initialDisplay
  else if 0 ≤ i then
    match steps.get? i.toNat with
    | some s => some ⟨s.description, s.selected, s.total_weight, s.total_value⟩
    | none => none
  else none

/-- A cursor operation of the frontend step-replay controls: Next,
Previous, jump to a step, the immediate effect of pressing Play, one
auto-play interval tick, and Reset. -/
inductive StepOp where
  | next
  | prev
  | goTo (i : ℤ)
  | startPlay
  | tick
  | reset
deriving DecidableEq, Repr

/-- One cursor operation of the frontend component, acting on the cursor
`idx` with `len` stored steps, translated from `nextStep`,
`previousStep`, `goToStep`, `startAutoPlay` (its immediate rewind) and
the interval callback, and `resetSteps`. -/
def applyOp (len : ℤ) (op : StepOp) (idx : ℤ) : ℤ :=
  match op with
  | .next => if idx < len - 1 then idx + 1 else idx
  | .prev => if 0 ≤ idx then idx - 1 else idx
  | .goTo i => if -1 ≤ i ∧ i < len then i else idx
  | .startPlay => if len - 1 ≤ idx then -1 else idx
  | .tick => if len - 1 ≤ idx then idx else idx + 1
  | .reset => -1

/-- A sequence of cursor operations applied in order. -/
def applyOps (len : ℤ) (ops : List StepOp) (idx : ℤ) : ℤ :=
  ops.foldl (fun s op => applyOp len op s) idx

/-! ## Item editing in the frontend (`updateItem`) -/

/-- A JavaScript number as far as the item-editing code observes it: a
finite value (exact, no arithmetic is performed on it), NaN, or an
infinity.  `parseFloat` on an arbitrary input string returns exactly one
of these (for example `parseFloat("1e999")` is `Infinity`). -/
inductive JSNum where
  | num (q : ℚ)
  | nan
  | inf
  | ninf
deriving DecidableEq, Repr

/-- JavaScript truthiness of a number: false exactly for NaN and zero. -/
def JSNum.truthy : JSNum → Bool
  | .num q => decide (q ≠ 0)
  | .nan => false
  | .inf => true
  | .ninf => true

/-- The JavaScript expression `x || 0` applied to a number. -/
def orZero (x : JSNum) : JSNum := if x.truthy then x else .num 0

/-- An item row of the frontend input form. -/
structure FormItem where
  id : ℤ
  weight : JSNum
  value : JSNum
deriving DecidableEq, Repr

/-- The editable fields of a form item (the component calls `updateItem`
with field name "weight" or "value"). -/
inductive Field where
  | weight
  | value
deriving DecidableEq, Repr

/-- Replace one field of a form item. -/
def setField (it : FormItem) (f : Field) (x : JSNum) : FormItem :=
  match f with
  | .weight => { it with weight := x }
  | .value => { it with value := x }

/-- The frontend `updateItem`: map over the items, replacing the matching
item's field with `parseFloat(value) || 0` (here `pv` is the already
parsed `parseFloat(value)`). -/
def updateItem (items : List FormItem) (id : ℤ) (f : Field) (pv : JSNum) : List FormItem :=
  items.map fun it => if it.id = id then setField it f (orZero pv) else it

/-- The three items of the documented example problem (Scenario A/B):
ids 1, 2, 3 with weights 10, 20, 30 and values 60, 100, 120. -/
def scnAItems : List Item := [⟨1, 10, 60⟩, ⟨2, 20, 100⟩, ⟨3, 30, 120⟩]

/-! ## Helper lemmas: sums -/

@[simp]
lemma wsum_nil : wsum [] = 0 := rfl

@[simp]
lemma wsum_cons (x : Item) (l : List Item) : wsum (x :: l) = x.weight + wsum l := by
  simp [wsum]

@[simp]
lemma vsum_nil : vsum [] = 0 := rfl

@[simp]
lemma vsum_cons (x : Item) (l : List Item) : vsum (x :: l) = x.value + vsum l := by
  simp [vsum]

@[simp]
lemma fracWeightOf_nil : fracWeightOf [] = 0 := rfl

@[simp]
lemma fracWeightOf_cons (p : Item × ℚ) (s : List (Item × ℚ)) :
    fracWeightOf (p :: s) = (p.1.weight : ℚ) * p.2 + fracWeightOf s := by
  simp [fracWeightOf]

@[simp]
lemma fracValueOf_nil : fracValueOf [] = 0 := rfl

@[simp]
lemma fracValueOf_cons (p : Item × ℚ) (s : List (Item × ℚ)) :
    fracValueOf (p :: s) = p.1.value * p.2 + fracValueOf s := by
  simp [fracValueOf]

lemma wsum_perm {l l' : List Item} (h : l.Perm l') : wsum l = wsum l' :=
  (h.map Item.weight).sum_eq

lemma vsum_perm {l l' : List Item} (h : l.Perm l') : vsum l = vsum l' :=
  (h.map Item.value).sum_eq

/-! ## Helper lemmas: the ranking order -/

lemma rankLE_total (a b : Item) : rankLE a b ∨ rankLE b a := by
  unfold rankLE
  rcases lt_trichotomy (density a) (density b) with h | h | h
  · exact Or.inr (Or.inl h)
  · rcases le_total a.id b.id with hi | hi
    · exact Or.inl (Or.inr ⟨h, hi⟩)
    · exact Or.inr (Or.inr ⟨h.symm, hi⟩)
  · exact Or.inl (Or.inl h)

lemma rankLE_trans {a b c : Item} (h1 : rankLE a b) (h2 : rankLE b c) : rankLE a c := by
  unfold rankLE at h1 h2 ⊢
  rcases h1 with h1 | ⟨e1, i1⟩
  · rcases h2 with h2 | ⟨e2, i2⟩
    · exact Or.inl (h2.trans h1)
    · exact Or.inl (by rw [← e2]; exact h1)
  · rcases h2 with h2 | ⟨e2, i2⟩
    · exact Or.inl (by rw [e1]; exact h2)
    · exact Or.inr ⟨e1.trans e2, i1.trans i2⟩

lemma mem_insRank {x y : Item} {l : List Item} : y ∈ insRank x l ↔ y = x ∨ y ∈ l := by
  induction l with
  | nil => simp [insRank]
  | cons z zs ih =>
    by_cases h : rankLE x z
    · simp [insRank, h]
    · simp only [insRank, if_neg h, List.mem_cons, ih]
      tauto

lemma insRank_perm (x : Item) (l : List Item) : (insRank x l).Perm (x :: l) := by
  induction l with
  | nil => simp [insRank]
  | cons y ys ih =>
    by_cases h : rankLE x y
    · simp [insRank, h]
    · rw [insRank, if_neg h]
      exact (ih.cons y).trans (List.Perm.swap x y ys)

lemma rank_perm (l : List Item) : (rank l).Perm l := by
  induction l with
  | nil => simp [rank]
  | cons x xs ih =>
    exact (insRank_perm x (rank xs)).trans (ih.cons x)

lemma insRank_pairwise {x : Item} {l : List Item} (hl : l.Pairwise rankLE) :
    (insRank x l).Pairwise rankLE := by
  induction l with
  | nil => simp [insRank]
  | cons y ys ih =>
    obtain ⟨hy, hys⟩ := List.pairwise_cons.mp hl
    by_cases h : rankLE x y
    · rw [insRank, if_pos h]
      refine List.pairwise_cons.mpr ⟨?_, hl⟩
      intro z hz
      rcases List.mem_cons.mp hz with rfl | hz
      · exact h
      · exact rankLE_trans h (hy z hz)
    · rw [insRank, if_neg h]
      have hyx : rankLE y x := (rankLE_total x y).resolve_left h
      refine List.pairwise_cons.mpr ⟨?_, ih hys⟩
      intro z hz
      rcases mem_insRank.mp hz with rfl | hz
      · exact hyx
      · exact hy z hz

lemma rank_pairwise (l : List Item) : (rank l).Pairwise rankLE := by
  induction l with
  | nil => simp [rank]
  | cons x xs ih => exact insRank_pairwise ih

lemma rank_pairwise_density (l : List Item) :
    (rank l).Pairwise (fun a b => density b ≤ density a) := by
  refine (rank_pairwise l).imp ?_
  rintro a b (h | ⟨e, _⟩)
  · exact le_of_lt h
  · exact le_of_eq e.symm

/-! ## Helper lemmas: DP optimality -/

lemma sublist_vsum_le_best {s l : List Item} (h : s.Sublist l) :
    ∀ c : ℕ, wsum s ≤ c → vsum s ≤ best l c := by
  induction h with
  | slnil => intro c _; simp [best]
  | @cons l₁ l₂ a h ih =>
    intro c hc
    have h1 := ih c hc
    by_cases hw : c < a.weight
    · simpa [best, hw] using h1
    · rw [show best (a :: l₂) c = max (best l₂ c) (best l₂ (c - a.weight) + a.value) by
        simp [best, hw]]
      exact h1.trans (le_max_left _ _)
  | @cons₂ l₁ l₂ a h ih =>
    intro c hc
    rw [wsum_cons] at hc
    have hw : ¬ c < a.weight := by omega
    have h1 := ih (c - a.weight) (by omega)
    rw [vsum_cons]
    calc a.value + vsum l₁ ≤ best l₂ (c - a.weight) + a.value := by linarith
      _ ≤ max (best l₂ c) (best l₂ (c - a.weight) + a.value) := le_max_right _ _
      _ = best (a :: l₂) c := by simp [best, hw]

lemma dpBack_sublist (l : List Item) (c : ℕ) : (dpBack l c).Sublist l := by
  induction l generalizing c with
  | nil => simp [dpBack]
  | cons x xs ih =>
    rw [dpBack]
    split_ifs with h1 h2
    · exact (ih c).cons x
    · exact (ih (c - x.weight)).cons₂ x
    · exact (ih c).cons x

lemma dpBack_wsum (l : List Item) (c : ℕ) : wsum (dpBack l c) ≤ c := by
  induction l generalizing c with
  | nil => simp [dpBack]
  | cons x xs ih =>
    rw [dpBack]
    split_ifs with h1 h2
    · exact ih c
    · rw [wsum_cons]
      have := ih (c - x.weight)
      omega
    · exact ih c

lemma dpBack_vsum (l : List Item) (c : ℕ) : vsum (dpBack l c) = best l c := by
  induction l generalizing c with
  | nil => simp [dpBack, best]
  | cons x xs ih =>
    rw [dpBack]
    split_ifs with h1 h2
    · simp [best, h1, ih c]
    · rw [vsum_cons, ih (c - x.weight)]
      rw [show best (x :: xs) c = max (best xs c) (best xs (c - x.weight) + x.value) by
        simp [best, h1]]
      rw [max_eq_right h2]
      ring
    · rw [ih c]
      rw [show best (x :: xs) c = max (best xs c) (best xs (c - x.weight) + x.value) by
        simp [best, h1]]
      rw [max_eq_left (le_of_lt (not_le.mp h2))]

lemma subperm_vsum_le_best {s l : List Item} (h : s.Subperm l) (c : ℕ)
    (hc : wsum s ≤ c) : vsum s ≤ best l c := by
  obtain ⟨t, ht, hs⟩ := h
  calc vsum s = vsum t := (vsum_perm ht).symm
    _ ≤ best l c := sublist_vsum_le_best hs c (by rw [wsum_perm ht]; exact hc)

lemma best_perm {l l' : List Item} (h : l.Perm l') (c : ℕ) : best l c = best l' c := by
  apply le_antisymm
  · rw [← dpBack_vsum l c]
    exact subperm_vsum_le_best ((dpBack_sublist l c).subperm.trans h.subperm) c (dpBack_wsum l c)
  · rw [← dpBack_vsum l' c]
    exact subperm_vsum_le_best ((dpBack_sublist l' c).subperm.trans h.symm.subperm) c
      (dpBack_wsum l' c)

lemma dp01TotalValue_eq_best (items : List Item) (c : ℕ) :
    dp01TotalValue items c = best items c := by
  unfold dp01TotalValue dp01Selected
  rw [vsum_perm (List.reverse_perm _), dpBack_vsum, best_perm (List.reverse_perm items) c]

/-! ## Helper lemmas: greedy solver -/

lemma greedyGo_sublist (l : List Item) (cap run : ℕ) : (greedyGo l cap run).Sublist l := by
  induction l generalizing run with
  | nil => simp [greedyGo]
  | cons x xs ih =>
    rw [greedyGo]
    split_ifs with h1
    · exact (ih (run + x.weight)).cons₂ x
    · exact (ih run).cons x

lemma greedyGo_wsum (l : List Item) (cap run : ℕ) (h : run ≤ cap) :
    run + wsum (greedyGo l cap run) ≤ cap := by
  induction l generalizing run with
  | nil => simpa [greedyGo] using h
  | cons x xs ih =>
    rw [greedyGo]
    split_ifs with h1
    · rw [wsum_cons]
      have := ih (run + x.weight) h1
      omega
    · exact ih run h

/-! ## Helper lemmas: fractional solver -/

lemma fracGo_nonpos (l : List Item) {r : ℚ} (h : r ≤ 0) : fracGo l r = [] := by
  cases l <;> simp [fracGo, h]

@[simp]
lemma fracWeightOf_mk_cons (x : Item) (q : ℚ) (s : List (Item × ℚ)) :
    fracWeightOf ((x, q) :: s) = (x.weight : ℚ) * q + fracWeightOf s := by
  simp [fracWeightOf]

@[simp]
lemma fracValueOf_mk_cons (x : Item) (q : ℚ) (s : List (Item × ℚ)) :
    fracValueOf ((x, q) :: s) = x.value * q + fracValueOf s := by
  simp [fracValueOf]

lemma fracGo_weight (l : List Item) (r : ℚ) (hr : 0 ≤ r) :
    fracWeightOf (fracGo l r) ≤ r := by
  induction l generalizing r with
  | nil => simpa [fracGo] using hr
  | cons x xs ih =>
    rw [fracGo]
    split_ifs with h0 h1
    · simpa using hr
    · rw [fracWeightOf_mk_cons, mul_one]
      have := ih (r - (x.weight : ℚ)) (by linarith)
      linarith
    · rw [fracWeightOf_mk_cons, fracWeightOf_nil, add_zero]
      by_cases hw : (x.weight : ℚ) = 0
      · rw [hw, zero_mul]
        exact hr
      · rw [mul_comm, div_mul_cancel₀ r hw]

/-- Lipschitz bound on the fractional value: with all densities below
`dmax`, shrinking the capacity from `r` to `r'` loses at most
`dmax * (r - r')` of value. -/
lemma frac_lipschitz (dmax : ℚ) (hd0 : 0 ≤ dmax) (l : List Item)
    (hd : ∀ y ∈ l, density y ≤ dmax) (hw : ∀ y ∈ l, 1 ≤ y.weight) :
    ∀ r r1 : ℚ, 0 ≤ r1 → r1 ≤ r →
      fracValueOf (fracGo l r) ≤ fracValueOf (fracGo l r1) + dmax * (r - r1) := by
  induction l with
  | nil =>
    intro r r1 h1 h2
    simp only [fracGo, fracValueOf_nil, zero_add]
    nlinarith
  | cons x xs ih =>
    intro r r1 hr1 hrr
    have hdx : density x ≤ dmax := hd x (List.mem_cons_self x xs)
    have hwx : 1 ≤ x.weight := hw x (List.mem_cons_self x xs)
    have hwxq : (1 : ℚ) ≤ (x.weight : ℚ) := by exact_mod_cast hwx
    have hwx0 : (0 : ℚ) < (x.weight : ℚ) := by linarith
    have hdtail : ∀ y ∈ xs, density y ≤ dmax := fun y hy => hd y (List.mem_cons_of_mem x hy)
    have hwtail : ∀ y ∈ xs, 1 ≤ y.weight := fun y hy => hw y (List.mem_cons_of_mem x hy)
    have hvx : density x * (x.weight : ℚ) = x.value := by
      rw [density, div_mul_cancel₀ _ (ne_of_gt hwx0)]
    by_cases h0 : r ≤ 0
    · have hr0 : r = 0 := le_antisymm h0 (hr1.trans hrr)
      have hr10 : r1 = 0 := by linarith
      subst hr0
      subst hr10
      simp [fracGo]
    · push_neg at h0
      rw [fracGo, if_neg (not_le.mpr h0)]
      by_cases h1 : (x.weight : ℚ) ≤ r
      · rw [if_pos h1, fracValueOf_mk_cons, mul_one]
        by_cases h2 : (x.weight : ℚ) ≤ r1
        · have h01 : ¬ r1 ≤ 0 := by linarith
          rw [fracGo, if_neg h01, if_pos h2, fracValueOf_mk_cons, mul_one]
          have := ih hdtail hwtail (r - (x.weight : ℚ)) (r1 - (x.weight : ℚ))
            (by linarith) (by linarith)
          nlinarith
        · have hbound := ih hdtail hwtail (r - (x.weight : ℚ)) 0 le_rfl (by linarith)
          rw [fracGo_nonpos xs le_rfl] at hbound
          simp only [fracValueOf_nil, zero_add, sub_zero] at hbound
          push_neg at h2
          by_cases h01 : r1 ≤ 0
          · have hr10 : r1 = 0 := le_antisymm h01 hr1
            rw [fracGo_nonpos (x :: xs) h01]
            subst hr10
            simp only [fracValueOf_nil, zero_add, sub_zero]
            nlinarith
          · push_neg at h01
            rw [fracGo, if_neg (not_le.mpr h01), if_neg (not_le.mpr h2),
              fracValueOf_mk_cons, fracValueOf_nil, add_zero]
            have hfrac : x.value * (r1 / (x.weight : ℚ)) = density x * r1 := by
              rw [density, div_mul_eq_mul_div, ← mul_div_assoc]
            nlinarith
      · push_neg at h1
        rw [if_neg (not_le.mpr h1), fracValueOf_mk_cons, fracValueOf_nil, add_zero]
        have hfr : x.value * (r / (x.weight : ℚ)) = density x * r := by
          rw [density, div_mul_eq_mul_div, ← mul_div_assoc]
        by_cases h01 : r1 ≤ 0
        · have hr10 : r1 = 0 := le_antisymm h01 hr1
          rw [fracGo_nonpos (x :: xs) h01]
          subst hr10
          simp only [fracValueOf_nil, zero_add, sub_zero]
          nlinarith
        · push_neg at h01
          have h2 : ¬ (x.weight : ℚ) ≤ r1 := by linarith
          rw [fracGo, if_neg (not_le.mpr h01), if_neg h2, fracValueOf_mk_cons,
            fracValueOf_nil, add_zero]
          have hfrac : x.value * (r1 / (x.weight : ℚ)) = density x * r1 := by
            rw [density, div_mul_eq_mul_div, ← mul_div_assoc]
          nlinarith

/-- With all densities below `dmax`, the fractional value at capacity `r`
is at most `dmax * r`. -/
lemma frac_value_le (dmax : ℚ) (hd0 : 0 ≤ dmax) (l : List Item)
    (hd : ∀ y ∈ l, density y ≤ dmax) (hw : ∀ y ∈ l, 1 ≤ y.weight)
    (r : ℚ) (hr : 0 ≤ r) : fracValueOf (fracGo l r) ≤ dmax * r := by
  have := frac_lipschitz dmax hd0 l hd hw r 0 le_rfl hr
  rw [fracGo_nonpos l le_rfl] at this
  simpa using this

/-- The fractional greedy value on a density-sorted list dominates the
value of every feasible 0/1 selection taken from that list. -/
lemma frac_dominates {s l : List Item} (hsub : s.Sublist l)
    (hp : l.Pairwise (fun a b => density b ≤ density a))
    (hw : ∀ y ∈ l, 1 ≤ y.weight) (hv : ∀ y ∈ l, 0 ≤ y.value) :
    ∀ r : ℚ, 0 ≤ r → (wsum s : ℚ) ≤ r → vsum s ≤ fracValueOf (fracGo l r) := by
  induction hsub with
  | slnil =>
    intro r hr _
    simp [fracGo]
  | @cons l₁ l₂ a h ih =>
    intro r hr hws
    obtain ⟨hda, hp2⟩ := List.pairwise_cons.mp hp
    have hw2 : ∀ y ∈ l₂, 1 ≤ y.weight := fun y hy => hw y (List.mem_cons_of_mem a hy)
    have hv2 : ∀ y ∈ l₂, 0 ≤ y.value := fun y hy => hv y (List.mem_cons_of_mem a hy)
    have hwa : 1 ≤ a.weight := hw a (List.mem_cons_self a l₂)
    have hwaq : (1 : ℚ) ≤ (a.weight : ℚ) := by exact_mod_cast hwa
    have hwa0 : (0 : ℚ) < (a.weight : ℚ) := by linarith
    have hda0 : 0 ≤ density a :=
      div_nonneg (hv a (List.mem_cons_self a l₂)) (by positivity)
    have step := ih hp2 hw2 hv2 r hr hws
    have hvwa : density a * (a.weight : ℚ) = a.value := by
      rw [density, div_mul_cancel₀ _ (ne_of_gt hwa0)]
    by_cases h0 : r ≤ 0
    · rw [fracGo_nonpos l₂ h0] at step
      rw [fracGo_nonpos (a :: l₂) h0]
      exact step
    · push_neg at h0
      rw [fracGo, if_neg (not_le.mpr h0)]
      by_cases h1 : (a.weight : ℚ) ≤ r
      · rw [if_pos h1, fracValueOf_mk_cons, mul_one]
        have lip := frac_lipschitz (density a) hda0 l₂ hda hw2 r (r - (a.weight : ℚ))
          (by linarith) (by linarith)
        nlinarith
      · rw [if_neg h1, fracValueOf_mk_cons, fracValueOf_nil, add_zero]
        have f1 := frac_value_le (density a) hda0 l₂ hda hw2 r (le_of_lt h0)
        have hfr : a.value * (r / (a.weight : ℚ)) = density a * r := by
          rw [density, div_mul_eq_mul_div, ← mul_div_assoc]
        nlinarith
  | @cons₂ l₁ l₂ a h ih =>
    intro r hr hws
    obtain ⟨hda, hp2⟩ := List.pairwise_cons.mp hp
    have hw2 : ∀ y ∈ l₂, 1 ≤ y.weight := fun y hy => hw y (List.mem_cons_of_mem a hy)
    have hv2 : ∀ y ∈ l₂, 0 ≤ y.value := fun y hy => hv y (List.mem_cons_of_mem a hy)
    have hwa : 1 ≤ a.weight := hw a (List.mem_cons_self a l₂)
    have hwaq : (1 : ℚ) ≤ (a.weight : ℚ) := by exact_mod_cast hwa
    have hws2 : (a.weight : ℚ) + (wsum l₁ : ℚ) ≤ r := by
      rw [wsum_cons] at hws
      push_cast at hws
      linarith
    have hwnn : (0 : ℚ) ≤ (wsum l₁ : ℚ) := by positivity
    have h1 : (a.weight : ℚ) ≤ r := by linarith
    have h0 : ¬ r ≤ 0 := by linarith
    rw [fracGo, if_neg h0, if_pos h1, fracValueOf_mk_cons, mul_one, vsum_cons]
    have := ih hp2 hw2 hv2 (r - (a.weight : ℚ)) (by linarith) (by linarith)
    nlinarith

/-! ## Claim theorems: concrete scenarios and the validator -/

/-- C1: on the problem with items (1,10,60), (2,20,100), (3,30,120) and
capacity 50, the exact (dp_01) solver returns exactly the selection
of items 2 and 3, with total weight 50 and total value 220. -/
theorem dp01_scenarioA :
    dp01Selected scnAItems 50 = [⟨2, 20, 100⟩, ⟨3, 30, 120⟩] ∧
    dp01TotalWeight scnAItems 50 = 50 ∧
    dp01TotalValue scnAItems 50 = 220 := by
  refine ⟨?_, ?_, ?_⟩ <;>
    norm_num [dp01Selected, dp01TotalWeight, dp01TotalValue, scnAItems, dpBack, best,
      wsum, vsum]

/-- C4: on the same problem with capacity 50, the fractional solver
selects item 1 fully, item 2 fully and item 3 at fraction 2/3 (rounded
to 0.667 in the reported JSON), with total value 240; the scan stops at
the fractional item by construction of `fracGo`. -/
theorem fractional_scenarioB :
    fracSelected scnAItems 50 =
      [(⟨1, 10, 60⟩, 1), (⟨2, 20, 100⟩, 1), (⟨3, 30, 120⟩, 2/3)] ∧
    fracTotalValue scnAItems 50 = 240 := by
  constructor <;>
    norm_num [fracSelected, fracTotalValue, fracValueOf, fracGo, rank, scnAItems,
      insRank, rankLE, density]

/-- C5 counterexample: a problem with algorithm dp_01 and capacity 15000
(strictly above 10000) whose items list is empty fails validation with
EmptyItems, not CapacityTooLargeForExact — the claim is false as
universally stated, because the validator short-circuits on the earlier
checks. -/
theorem validate_exact_capacity_counterexample :
    validate ⟨[], 15000, "dp_01"⟩ = Except.error ValidationError.EmptyItems ∧
    validate ⟨[], 15000, "dp_01"⟩ ≠ Except.error ValidationError.CapacityTooLargeForExact := by
  constructor <;> simp [validate]

/-- C5 amended: for every problem passing the earlier validator checks
(non-empty, at most 1000 items, positive capacity at most 1,000,000,
in-bounds items, distinct ids) whose capacity exceeds 10000, validation
under dp_01 fails with CapacityTooLargeForExact, while the identical
problem under greedy or fractional validates successfully. -/
theorem validate_exact_capacity_gate (p : RawProblem)
    (h1 : p.items ≠ []) (h2 : p.items.length ≤ 1000)
    (h3 : 0 < p.capacity) (h4 : p.capacity ≤ 1000000)
    (h5 : ∀ x ∈ p.items, 0 < x.weight ∧ 0 ≤ x.value ∧ x.weight ≤ 1000000 ∧ x.value ≤ 1000000)
    (h6 : (p.items.map RawItem.id).Nodup)
    (h7 : 10000 < p.capacity) :
    (p.algorithm = "dp_01" →
      validate p = Except.error ValidationError.CapacityTooLargeForExact) ∧
    (p.algorithm = "greedy" ∨ p.algorithm = "fractional" →
      validate p = Except.ok ()) := by
  have hfind : p.items.find? (fun x => !(rawItemOk x)) = none := by
    rw [List.find?_eq_none]
    intro x hx
    have h := h5 x hx
    simp [rawItemOk]
    tauto
  have e2 : ¬ (1000 < p.items.length) := not_lt.mpr h2
  have e3 : ¬ (p.capacity ≤ 0) := not_le.mpr h3
  have e4 : ¬ (1000000 < p.capacity) := not_lt.mpr h4
  constructor
  · intro ha
    simp [validate, h1, e2, e3, e4, hfind, h6, ha, h7]
  · intro ha
    rcases ha with ha | ha <;>
      simp [validate, h1, e2, e3, e4, hfind, h6, ha, h7]

/-- Witness for the amended C5 theorem at the Scenario D input: one valid
item, capacity 15000, algorithm dp_01. -/
theorem validate_exact_capacity_gate_witness :
    (RawProblem.items ⟨[⟨1, 10, 60⟩], 15000, "dp_01"⟩ ≠ []) ∧
    ((validate ⟨[⟨1, 10, 60⟩], 15000, "dp_01"⟩ =
        Except.error ValidationError.CapacityTooLargeForExact) ∧
      True) :=
  ⟨by simp,
    (validate_exact_capacity_gate ⟨[⟨1, 10, 60⟩], 15000, "dp_01"⟩
      (by simp) (by simp) (by norm_num) (by norm_num)
      (by intro x hx; simp at hx; subst hx; norm_num)
      (by simp) (by norm_num)).1 rfl,
    trivial⟩

/-- C6: a problem whose items list is empty is rejected with EmptyItems
whatever its capacity and algorithm string, because the non-empty check
is the first one and validation short-circuits. -/
theorem validate_empty_items_first (p : RawProblem) (h : p.items = []) :
    validate p = Except.error ValidationError.EmptyItems := by
  simp [validate, h]

/-- Witness for C6 at an input with a negative capacity and a nonsense
algorithm name. -/
theorem validate_empty_items_first_witness :
    validate ⟨[], -5, "nonsense"⟩ = Except.error ValidationError.EmptyItems :=
  validate_empty_items_first ⟨[], -5, "nonsense"⟩ rfl

/-- C7 counterexample: on Scenario A the exact solver's trace has 4 steps
for 3 items (so not exactly one step per item), and the step at index 0
carries no decision — it is the stored initialization record shown in
the documentation, not the first actual decision. -/
theorem dp_trace_counterexample :
    (dp01Steps scnAItems 50).length ≠ scnAItems.length ∧
    (dp01Steps scnAItems 50).head?.map Step.decision = some none := by
  constructor
  · simp [dp01Steps, scnAItems]
  · rfl

/-- C7 amended: for every item list and capacity, the exact solver's
trace stores one initialization record at index 0 (no decision, empty
selection) followed by exactly one step per item, each carrying a
decision; the pre-trace "ready" display state is synthesized by the
consumer for cursor -1 and is not a stored step. -/
theorem dp_trace_shape (items : List Item) (c : ℕ) :
    (dp01Steps items c).length = items.length + 1 ∧
    (dp01Steps items c).head? = some (dpInitStep items c) ∧
    (dpInitStep items c).decision = none ∧
    (dpInitStep items c).selected = [] ∧
    (∀ s ∈ (dp01Steps items c).tail, s.decision ≠ none) ∧
    getCurrentStep (dp01Steps items c) (-1) = some initialDisplay := by
  refine ⟨?_, rfl, rfl, rfl, ?_, rfl⟩
  · simp [dp01Steps]
  · intro s hs
    simp only [dp01Steps, List.tail_cons, List.mem_map] at hs
    obtain ⟨p, _, rfl⟩ := hs
    simp [dpItemStep]

/-! ## Claim theorems: the frontend step cursor and item editing -/

/-- One cursor operation keeps the cursor inside [-1, n-1]. -/
theorem applyOp_range (n : ℤ) (hn : 0 ≤ n) (op : StepOp) (idx : ℤ)
    (hlo : -1 ≤ idx) (hhi : idx ≤ n - 1) :
    -1 ≤ applyOp n op idx ∧ applyOp n op idx ≤ n - 1 := by
  cases op <;> simp only [applyOp] <;> omega

/-- C9: starting from any cursor in [-1, steps.length - 1], every
sequence of frontend cursor operations (next, previous, go-to, play,
auto-play tick, reset) leaves the cursor in [-1, steps.length - 1]. -/
theorem cursor_stays_in_range (n : ℕ) (ops : List StepOp) (idx : ℤ)
    (hlo : -1 ≤ idx) (hhi : idx ≤ (n : ℤ) - 1) :
    -1 ≤ applyOps (n : ℤ) ops idx ∧ applyOps (n : ℤ) ops idx ≤ (n : ℤ) - 1 := by
  induction ops generalizing idx with
  | nil => exact ⟨hlo, hhi⟩
  | cons op rest ih =>
    have h := applyOp_range (n : ℤ) (Int.natCast_nonneg n) op idx hlo hhi
    exact ih (applyOp (n : ℤ) op idx) h.1 h.2

/-- Witness for C9: two stored steps, a seven-operation sequence, cursor
starting at -1. -/
theorem cursor_stays_in_range_witness :
    -1 ≤ applyOps ((2 : ℕ) : ℤ)
        [StepOp.next, StepOp.tick, StepOp.goTo 0, StepOp.prev,
          StepOp.startPlay, StepOp.reset, StepOp.next] (-1) ∧
      applyOps ((2 : ℕ) : ℤ)
        [StepOp.next, StepOp.tick, StepOp.goTo 0, StepOp.prev,
          StepOp.startPlay, StepOp.reset, StepOp.next] (-1) ≤ ((2 : ℕ) : ℤ) - 1 :=
  cursor_stays_in_range 2
    [StepOp.next, StepOp.tick, StepOp.goTo 0, StepOp.prev,
      StepOp.startPlay, StepOp.reset, StepOp.next] (-1)
    (by norm_num) (by norm_num)

/-- C10 counterexample: when `parseFloat` yields Infinity (for example
on the input string "1e999" or "Infinity"), `updateItem` stores Infinity
in the field — Infinity is truthy — whereas the claim says every value
that is not a nonzero finite number is replaced by 0. -/
theorem update_item_counterexample :
    updateItem [⟨1, JSNum.num 1, JSNum.num 1⟩] 1 Field.weight JSNum.inf
      = [⟨1, JSNum.inf, JSNum.num 1⟩] ∧ JSNum.inf ≠ JSNum.num 0 := by
  constructor
  · rfl
  · simp

/-- C10 amended: `updateItem` replaces the matching item's field with
`parseFloat(v)` whenever that value is truthy — any nonzero non-NaN
number, including the infinities — and with 0 when `parseFloat(v)` is
NaN (empty or non-numeric input) or zero; all other items are unchanged.
In particular the input string "0" gives the item weight 0, which
violates the Problem invariant `0 < weight` and is caught only by
server-side validation. -/
theorem update_item_behavior (items : List FormItem) (id : ℤ) (f : Field)
    (pv : JSNum) (it : FormItem) (hit : it ∈ items) :
    (it.id ≠ id → it ∈ updateItem items id f pv) ∧
    (it.id = id → setField it f (orZero pv) ∈ updateItem items id f pv) ∧
    (∀ q : ℚ, pv = JSNum.num q → q ≠ 0 → orZero pv = pv) ∧
    (pv = JSNum.inf ∨ pv = JSNum.ninf → orZero pv = pv) ∧
    (pv = JSNum.nan ∨ pv = JSNum.num 0 → orZero pv = JSNum.num 0) ∧
    (updateItem [⟨1, JSNum.num 1, JSNum.num 1⟩] 1 Field.weight (JSNum.num 0)).map
        FormItem.weight = [JSNum.num 0] := by
  refine ⟨?_, ?_, ?_, ?_, ?_, ?_⟩
  · intro hne
    exact List.mem_map.mpr ⟨it, hit, by simp [hne]⟩
  · intro heq
    exact List.mem_map.mpr ⟨it, hit, by simp [heq]⟩
  · rintro q rfl hq
    simp [orZero, JSNum.truthy, hq]
  · rintro (rfl | rfl) <;> rfl
  · rintro (rfl | rfl) <;> simp [orZero, JSNum.truthy]
  · rfl

/-- C8: on every list of valid items (positive weights, distinct ids),
`rank` returns a permutation of the input that is sorted by strictly
descending value/weight ratio, items of equal ratio ordered by strictly
ascending id; being a pure function of the input it is identical across
repeated calls. -/
theorem rank_sorted (l : List Item) (hw : ∀ x ∈ l, 1 ≤ x.weight)
    (hid : l.Pairwise fun a b => a.id ≠ b.id) :
    (rank l).Perm l ∧
    (rank l).Pairwise
      (fun a b => density b < density a ∨ (density a = density b ∧ a.id < b.id)) := by
  refine ⟨rank_perm l, ?_⟩
  have hid2 : (rank l).Pairwise (fun a b => a.id ≠ b.id) :=
    ((rank_perm l).pairwise_iff (fun h => Ne.symm h)).mpr hid
  refine ((rank_pairwise l).and hid2).imp ?_
  rintro a b ⟨hle | ⟨e, hle⟩, hne⟩
  · exact Or.inl hle
  · exact Or.inr ⟨e, lt_of_le_of_ne hle hne⟩

/-- Witness for C8 at the Scenario A items. -/
theorem rank_sorted_witness :
    (∀ x ∈ scnAItems, 1 ≤ x.weight) ∧
    ((rank scnAItems).Perm scnAItems ∧
      (rank scnAItems).Pairwise
        (fun a b => density b < density a ∨ (density a = density b ∧ a.id < b.id))) :=
  ⟨by decide, rank_sorted scnAItems (by decide) (by decide)⟩

/-- C2: on every valid problem instance, each of the three solvers
returns a selection whose total weight (summing weight times fraction)
is at most the capacity. -/
theorem solvers_feasible (items : List Item) (cap : ℕ) (hv : ValidInstance items cap) :
    dp01TotalWeight items cap ≤ cap ∧
    greedyTotalWeight items cap ≤ cap ∧
    fracTotalWeight items cap ≤ (cap : ℚ) := by
  refine ⟨?_, ?_, ?_⟩
  · unfold dp01TotalWeight dp01Selected
    rw [wsum_perm (List.reverse_perm _)]
    exact dpBack_wsum _ _
  · unfold greedyTotalWeight greedySelected
    have := greedyGo_wsum (rank items) cap 0 (Nat.zero_le _)
    omega
  · exact fracGo_weight _ _ (by positivity)

/-- Witness for C2 at the Scenario A instance. -/
theorem solvers_feasible_witness :
    ValidInstance scnAItems 50 ∧
    (dp01TotalWeight scnAItems 50 ≤ 50 ∧
      greedyTotalWeight scnAItems 50 ≤ 50 ∧
      fracTotalWeight scnAItems 50 ≤ ((50 : ℕ) : ℚ)) :=
  ⟨by decide, solvers_feasible scnAItems 50 (by decide)⟩

/-- C3: on every valid problem instance the reported total values form
the chain: fractional solver at least exact solver, exact solver at
least greedy solver. -/
theorem value_chain (items : List Item) (cap : ℕ) (hv : ValidInstance items cap) :
    greedyTotalValue items cap ≤ dp01TotalValue items cap ∧
    dp01TotalValue items cap ≤ fracTotalValue items cap := by
  obtain ⟨-, -, hitem, -, -, -⟩ := hv
  have hw1 : ∀ y ∈ rank items, 1 ≤ y.weight := fun y hy =>
    (hitem y ((rank_perm items).subset hy)).1
  have hv0 : ∀ y ∈ rank items, 0 ≤ y.value := fun y hy =>
    (hitem y ((rank_perm items).subset hy)).2.2.1
  constructor
  · rw [dp01TotalValue_eq_best]
    unfold greedyTotalValue greedySelected
    apply subperm_vsum_le_best
    · exact (greedyGo_sublist (rank items) cap 0).subperm.trans (rank_perm items).subperm
    · have := greedyGo_wsum (rank items) cap 0 (Nat.zero_le _)
      omega
  · rw [dp01TotalValue_eq_best]
    have hsubp : (dpBack items.reverse cap).Subperm (rank items) :=
      (dpBack_sublist items.reverse cap).subperm.trans
        ((List.reverse_perm items).trans (rank_perm items).symm).subperm
    obtain ⟨t, ht, hs⟩ := hsubp
    have hbv : vsum t = best items cap := by
      rw [vsum_perm ht, dpBack_vsum, best_perm (List.reverse_perm items) cap]
    have hwt : wsum t ≤ cap := by
      rw [wsum_perm ht]
      exact dpBack_wsum items.reverse cap
    unfold fracTotalValue fracSelected
    rw [← hbv]
    exact frac_dominates hs (rank_pairwise_density items) hw1 hv0 (cap : ℚ)
      (by positivity) (by exact_mod_cast hwt)

/-- Witness for C3 at the Scenario A instance. -/
theorem value_chain_witness :
    ValidInstance scnAItems 50 ∧
    (greedyTotalValue scnAItems 50 ≤ dp01TotalValue scnAItems 50 ∧
      dp01TotalValue scnAItems 50 ≤ fracTotalValue scnAItems 50) :=
  ⟨by decide, value_chain scnAItems 50 (by decide)⟩

/-- Witness for the amended C10 theorem: two items, editing item 1's
weight with a NaN parse result, observing item 2. -/
theorem update_item_behavior_witness :
    (FormItem.mk 2 (JSNum.num 3) (JSNum.num 4) ∈
      [FormItem.mk 1 (JSNum.num 5) (JSNum.num 7), FormItem.mk 2 (JSNum.num 3) (JSNum.num 4)]) ∧
    ((FormItem.mk 2 (JSNum.num 3) (JSNum.num 4)).id ≠ 1 →
      FormItem.mk 2 (JSNum.num 3) (JSNum.num 4) ∈
        updateItem
          [FormItem.mk 1 (JSNum.num 5) (JSNum.num 7), FormItem.mk 2 (JSNum.num 3) (JSNum.num 4)]
          1 Field.weight JSNum.nan) :=
  ⟨by simp,
    (update_item_behavior
      [FormItem.mk 1 (JSNum.num 5) (JSNum.num 7), FormItem.mk 2 (JSNum.num 3) (JSNum.num 4)]
      1 Field.weight JSNum.nan (FormItem.mk 2 (JSNum.num 3) (JSNum.num 4)) (by simp)).1⟩

end Knapsack
